import Mathlib

/-!
Shallow embedding of MFEM's `HashTable` (src/general/hash.hpp) and proofs of
the specified properties: key canonicalization, get-or-create, peek, delete,
identifier management, counters and iteration.
-/

/-- Modelled from the spec: the identifier allocator (`IdGenerator` from
`idgenerator.hpp`, which is not part of the excerpt). The spec requires
`allocate() -> id`, `release(id)`, ids reused only after release, no mandated
allocation policy; released ids are kept in a pool, allocation prefers a
pooled id and otherwise hands out a fresh one. -/
structure IdGenerator where
  next : Nat
  reusable : List Nat
deriving DecidableEq

/-- Modelled from the spec: allocate an id, reusing a released one when the
pool is nonempty. -/
def IdGenerator.Get : IdGenerator → Nat × IdGenerator
  | ⟨n, []⟩ => (n, ⟨n + 1, []⟩)
  | ⟨n, r :: rs⟩ => (r, ⟨n, rs⟩)

/-- Modelled from the spec: release an id back to the pool for future reuse. -/
def IdGenerator.Reuse (g : IdGenerator) (id : Nat) : IdGenerator :=
  ⟨g.next, id :: g.reusable⟩

/-- An item following the `Hashed2` concept: an id and the stored canonical
key `(p1, p2)`. The C++ `next` chain pointer is represented by the item's
position in its bucket's chain list instead of a raw pointer. -/
structure Item2 where
  id : Nat
  p1 : Int
  p2 : Int
deriving DecidableEq

/-- State of `HashTable<ItemT>` for a `Hashed2` item type. Bucket chains are
lists whose head is the most recently prepended item (modelling the `next`
pointers); `id_to_item` is the `Array<ItemT*>` with `none` for NULL;
`new_bin` holds the "bin not yet in used_bins" flags. -/
structure HashTable2 where
  table : List (List Item2)
  mask : Nat
  id_gen : IdGenerator
  id_to_item : List (Option Item2)
  used_bins : List Nat
  new_bin : List Bool
  nqueries : Nat
  ncollisions : Nat
deriving DecidableEq

/-- The 2-key hash `(984120265*p1 + 125965121*p2) & mask`. Signed `int`
arithmetic wraps modulo `2^32`; `& mask` keeps the low bits of the wrapped
value (the C++ `mask` is `size-1` with `size` a power of two). -/
def HashTable2.hash (t : HashTable2) (p1 p2 : Int) : Nat :=
  ((984120265 * p1 + 125965121 * p2) % (2 ^ 32 : Int)).toNat &&& t.mask

/-- Key canonicalization for 2-ary keys: `if (p1 > p2) std::swap(p1, p2)`. -/
def canon2 (p1 p2 : Int) : Int × Int :=
  if p1 > p2 then (p2, p1) else (p1, p2)

/-- `HashTable::SearchList(item, p1, p2)`: scan a bucket chain for the
canonical key. Returns the found item (`none` for NULL) together with the
number of chain advances performed (the amount `ncollisions` grows by); the
caller adds 1 to `nqueries` per call, exactly as the source does. -/
def SearchList2 (p1 p2 : Int) : List Item2 → Option Item2 × Nat
  | [] => (none, 0)
  | item :: rest =>
    if item.p1 = p1 ∧ item.p2 = p2 then (some item, 0)
    else ((SearchList2 p1 p2 rest).1, (SearchList2 p1 p2 rest).2 + 1)

/-- Body of `HashTable::Get(int,int)` on an already canonicalized key
(hash.hpp lines 241-272): search the bucket, update the counters, and on a
miss create a new item, prepend it to the chain, record a newly used bin and
register the id-to-item mapping (growing the array NULL-filled as needed). -/
def HashTable2.GetSorted (t : HashTable2) (p1 p2 : Int) : Item2 × HashTable2 :=
  let idx := t.hash p1 p2
  let chain := t.table.getD idx []
  let found := SearchList2 p1 p2 chain
  let t1 : HashTable2 :=
    { t with nqueries := t.nqueries + 1, ncollisions := t.ncollisions + found.2 }
  match found.1 with
  | some node => (node, t1)
  | none =>
    let g := t1.id_gen.Get
    let newitem : Item2 := ⟨g.1, p1, p2⟩
    let grown :=
      if t1.id_to_item.length ≤ newitem.id then
        t1.id_to_item ++ List.replicate (newitem.id + 1 - t1.id_to_item.length) none
      else t1.id_to_item
    (newitem,
      { t1 with
        table := t1.table.set idx (newitem :: chain)
        used_bins :=
          if t1.new_bin.getD idx false then t1.used_bins ++ [idx] else t1.used_bins
        new_bin :=
          if t1.new_bin.getD idx false then t1.new_bin.set idx false else t1.new_bin
        id_to_item := grown.set newitem.id (some newitem)
        id_gen := g.2 })

/-- `HashTable::Get(int,int)`: canonicalize by ascending swap, then search or
create. -/
def HashTable2.Get (t : HashTable2) (p1 p2 : Int) : Item2 × HashTable2 :=
  let c := canon2 p1 p2
  t.GetSorted c.1 c.2

/-- `HashTable::Peek(int,int)`: canonicalize and search; `none` models a NULL
result. The second component carries the (`mutable`) counter updates. -/
def HashTable2.Peek (t : HashTable2) (p1 p2 : Int) : Option Item2 × HashTable2 :=
  let c := canon2 p1 p2
  let idx := t.hash c.1 c.2
  let found := SearchList2 c.1 c.2 (t.table.getD idx [])
  (found.1,
    { t with nqueries := t.nqueries + 1, ncollisions := t.ncollisions + found.2 })

/-- `HashTable::Peek(int id)`: the raw read `id_to_item[id]`. In-range unset
slots hold NULL (`none`); an out-of-range read is undefined behaviour in the
C++ and is modelled as `none`. -/
def HashTable2.PeekId (t : HashTable2) (id : Nat) : Option Item2 :=
  t.id_to_item.getD id none

/-- Unlinking step of `HashTable::Delete`: remove the first occurrence of
`item` from a bucket chain (pointer identity in C++, record identity here);
`none` when the item is not on the chain (the `mfem_error` case). -/
def removeFirst (item : Item2) : List Item2 → Option (List Item2)
  | [] => none
  | x :: rest =>
    if x = item then some rest
    else (removeFirst item rest).map (fun r => x :: r)

/-- `HashTable::Delete(ItemT*)`: re-derive the bucket index from the stored
key, unlink the item, clear its `id_to_item` slot and release the id. `none`
models the fatal `mfem_error("HashTable<>::Delete: item not found!")`, which
aborts before any of the later updates happen. -/
def HashTable2.Delete (t : HashTable2) (item : Item2) : Option HashTable2 :=
  let idx := t.hash item.p1 item.p2
  match removeFirst item (t.table.getD idx []) with
  | none => none
  | some chain =>
    some { t with
      table := t.table.set idx chain
      id_to_item := t.id_to_item.set item.id none
      id_gen := t.id_gen.Reuse item.id }

/-- `HashTable::HashTable(int size)`: set `mask = size-1`, fail fatally
(`none`) when `size & mask != 0`, otherwise allocate all-empty buckets, an
all-true `new_bin` array of the same length, and zero counters. `Int.land`
is the C bitwise `&` on two's complement integers. -/
def hashTableNew (size : Int) : Option HashTable2 :=
  let mask := size - 1
  if Int.land size mask ≠ 0 then none
  else some
    { table := List.replicate size.toNat []
      mask := mask.toNat
      id_gen := ⟨0, []⟩
      id_to_item := []
      used_bins := []
      new_bin := List.replicate size.toNat true
      nqueries := 0
      ncollisions := 0 }

/-- All live items of the table: the contents of all bucket chains. -/
def allItems (t : HashTable2) : List Item2 :=
  t.table.flatten

/-- Teardown diagnostic of `~HashTable`: warn iff `ncollisions > 3*nqueries`. -/
def teardownWarns (t : HashTable2) : Bool :=
  decide (t.ncollisions > 3 * t.nqueries)

/-- Number of chain advances a scan for canonical key `(p1,p2)` performs:
the position of the first match, or the chain length when there is none. -/
def advances2 (p1 p2 : Int) : List Item2 → Nat
  | [] => 0
  | item :: rest =>
    if item.p1 = p1 ∧ item.p2 = p2 then 0 else advances2 p1 p2 rest + 1

/-- Number of key comparisons a scan for canonical key `(p1,p2)` performs:
one per examined chain item. -/
def comparisons2 (p1 p2 : Int) : List Item2 → Nat
  | [] => 0
  | item :: rest =>
    if item.p1 = p1 ∧ item.p2 = p2 then 1 else comparisons2 p1 p2 rest + 1

/-- The `while (!cur_item && next_bin < used_bins.Size())` loop of
`Iterator::next()`: load chains of successive used bins until one is
nonempty or the bins run out. The iterator's `next_bin` cursor is
represented by the remaining suffix of `used_bins` (so `next_bin >=
used_bins.Size()` corresponds to the empty suffix). -/
def iterLoad (t : HashTable2) : List Nat → List Item2 → List Nat × List Item2
  | [], cur => ([], cur)
  | b :: rest, cur =>
    if cur = [] then iterLoad t rest (t.table.getD b [])
    else (b :: rest, cur)

/-- One call of `HashTable::Iterator::next()`. The state is
`(bins, cur)` where `bins` is the suffix of `used_bins` from `next_bin` on
and `cur` is the rest of the current chain from `cur_item` on (`[]` models
`cur_item == NULL`). Note that the source checks
`next_bin >= used_bins.Size()` FIRST and in that case unconditionally sets
`cur_item = NULL`, even when the current chain still has items. -/
def HashTable2.iterNext (t : HashTable2) (s : List Nat × List Item2) :
    List Nat × List Item2 :=
  if s.1 = [] then ([], [])
  else iterLoad t s.1 s.2.tail

/-- Run the iterator from a state, collecting the visited items; `fuel`
bounds the number of `next()` calls. -/
def iterRun (t : HashTable2) : Nat → List Nat × List Item2 → List Item2
  | 0, _ => []
  | fuel + 1, s =>
    match s.2 with
    | [] => []
    | item :: _ => item :: iterRun t fuel (t.iterNext s)

/-- Fuel that bounds any iteration: one `next()` per used bin plus one per
stored item. -/
def iterFuel (t : HashTable2) : Nat :=
  t.used_bins.length + (t.table.map List.length).sum + 1

/-- The items a freshly constructed `Iterator it(table)` visits until it
becomes NULL (the constructor calls `next()` once from `(0, NULL)`, i.e.
from the state with the full `used_bins` suffix and a NULL current item). -/
def iterItems (t : HashTable2) : List Item2 :=
  iterRun t (iterFuel t) (t.iterNext (t.used_bins, []))

/-- An item following the `Hashed4` concept: an id and the stored key
`(p1, p2, p3)`; `p4` is neither hashed nor stored. -/
structure Item4 where
  id : Nat
  p1 : Int
  p2 : Int
  p3 : Int
deriving DecidableEq

/-- State of `HashTable<ItemT>` for a `Hashed4` item type. -/
structure HashTable4 where
  table : List (List Item4)
  mask : Nat
  id_gen : IdGenerator
  id_to_item : List (Option Item4)
  used_bins : List Nat
  new_bin : List Bool
  nqueries : Nat
  ncollisions : Nat
deriving DecidableEq

/-- The 3-key hash `(984120265*p1 + 125965121*p2 + 495698413*p3) & mask`. -/
def HashTable4.hash (t : HashTable4) (p1 p2 p3 : Int) : Nat :=
  ((984120265 * p1 + 125965121 * p2 + 495698413 * p3) % (2 ^ 32 : Int)).toNat &&& t.mask

/-- Conditional ascending swap: one `if (x > y) std::swap(x, y);` step of
`detail::sort3` and `detail::sort4`. -/
def cswap (x y : Int) : Int × Int :=
  if x > y then (y, x) else (x, y)

/-- `detail::sort3(a,b,c)`: three conditional swaps `(a,b)`, `(a,c)`,
`(b,c)`; ascending result. -/
def sort3 (a b c : Int) : Int × Int × Int :=
  let ab := cswap a b
  let ac := cswap ab.1 c
  let bc := cswap ab.2 ac.2
  (ac.1, bc.1, bc.2)

/-- `detail::sort4(a,b,c,d)`: conditional swaps `(a,b)`, `(a,c)`, `(a,d)`
followed by `sort3` on the last three; ascending result. -/
def sort4 (a b c d : Int) : Int × Int × Int × Int :=
  let ab := cswap a b
  let ac := cswap ab.1 c
  let ad := cswap ac.1 d
  let s := sort3 ab.2 ac.2 ad.2
  (ad.1, s.1, s.2.1, s.2.2)

/-- The part of a canonicalized 4-ary key that survives: the three smallest
of the four inputs, in ascending order (the first three of `sort4`). -/
def keep3 (p1 p2 p3 p4 : Int) : Int × Int × Int :=
  ((sort4 p1 p2 p3 p4).1, (sort4 p1 p2 p3 p4).2.1, (sort4 p1 p2 p3 p4).2.2.1)

/-- `HashTable::SearchList(item, p1, p2, p3)`: the 3-key chain scan. -/
def SearchList3 (p1 p2 p3 : Int) : List Item4 → Option Item4 × Nat
  | [] => (none, 0)
  | item :: rest =>
    if item.p1 = p1 ∧ item.p2 = p2 ∧ item.p3 = p3 then (some item, 0)
    else ((SearchList3 p1 p2 p3 rest).1, (SearchList3 p1 p2 p3 rest).2 + 1)

/-- Body of `HashTable::Get(int,int,int,int)` after `detail::sort4`
(hash.hpp lines 279-306); only the three smallest keys appear. -/
def HashTable4.GetSorted (t : HashTable4) (p1 p2 p3 : Int) : Item4 × HashTable4 :=
  let idx := t.hash p1 p2 p3
  let chain := t.table.getD idx []
  let found := SearchList3 p1 p2 p3 chain
  let t1 : HashTable4 :=
    { t with nqueries := t.nqueries + 1, ncollisions := t.ncollisions + found.2 }
  match found.1 with
  | some node => (node, t1)
  | none =>
    let g := t1.id_gen.Get
    let newitem : Item4 := ⟨g.1, p1, p2, p3⟩
    let grown :=
      if t1.id_to_item.length ≤ newitem.id then
        t1.id_to_item ++ List.replicate (newitem.id + 1 - t1.id_to_item.length) none
      else t1.id_to_item
    (newitem,
      { t1 with
        table := t1.table.set idx (newitem :: chain)
        used_bins :=
          if t1.new_bin.getD idx false then t1.used_bins ++ [idx] else t1.used_bins
        new_bin :=
          if t1.new_bin.getD idx false then t1.new_bin.set idx false else t1.new_bin
        id_to_item := grown.set newitem.id (some newitem)
        id_gen := g.2 })

/-- `HashTable::Get(int,int,int,int)`: fully sort the four keys ascending,
drop the largest, then search or create on the three smallest. -/
def HashTable4.Get (t : HashTable4) (p1 p2 p3 p4 : Int) : Item4 × HashTable4 :=
  let s := sort4 p1 p2 p3 p4
  t.GetSorted s.1 s.2.1 s.2.2.1

/-- A concrete freshly constructed table of size 4 (the value of
`hashTableNew 4`). -/
def tbl4 : HashTable2 :=
  { table := [[], [], [], []]
    mask := 3
    id_gen := ⟨0, []⟩
    id_to_item := []
    used_bins := []
    new_bin := [true, true, true, true]
    nqueries := 0
    ncollisions := 0 }

/-- A concrete freshly constructed table of size 2. -/
def tbl2 : HashTable2 :=
  { table := [[], []]
    mask := 1
    id_gen := ⟨0, []⟩
    id_to_item := []
    used_bins := []
    new_bin := [true, true]
    nqueries := 0
    ncollisions := 0 }

/-- A concrete freshly constructed 4-ary table of size 4. -/
def tbl4q : HashTable4 :=
  { table := [[], [], [], []]
    mask := 3
    id_gen := ⟨0, []⟩
    id_to_item := []
    used_bins := []
    new_bin := [true, true, true, true]
    nqueries := 0
    ncollisions := 0 }

/-- The table obtained from the fresh size-4 table by `Get(0,1)` (creates the
item with id 0 and canonical key `(0,1)` in bucket 1). -/
def tblA : HashTable2 := (tbl4.Get 0 1).2

/-- The table obtained from `tblA` by deleting its only item. -/
def tblD : HashTable2 := (tblA.Delete ⟨0, 0, 1⟩).getD tblA

/-- A size-2 table holding two items whose keys `(0,1)` and `(2,3)` both hash
to bucket 1 (chain head is the more recent item, id 1). -/
def tblB : HashTable2 := ((tbl2.Get 0 1).2.Get 2 3).2

/-- Table states reachable by construction (with a positive size) followed by
`Get` and successful `Delete` calls. Size 0 passes the source's power-of-two
check but makes every later bucket access out of bounds (undefined behaviour
in the C++), so reachability starts from positive sizes. -/
inductive Reachable2 : HashTable2 → Prop
  | init (size : Int) (t : HashTable2) :
      0 < size → hashTableNew size = some t → Reachable2 t
  | get (t : HashTable2) (p1 p2 : Int) :
      Reachable2 t → Reachable2 (t.Get p1 p2).2
  | del (t t' : HashTable2) (item : Item2) :
      Reachable2 t → t.Delete item = some t' → Reachable2 t'

/-- Invariants maintained by every reachable `HashTable2` state. -/
structure Inv2 (t : HashTable2) : Prop where
  size_pos : 0 < t.table.length
  mask_eq : t.mask = t.table.length - 1
  hash_mem : ∀ idx, ∀ i ∈ t.table.getD idx [], t.hash i.p1 i.p2 = idx
  chain_keys : ∀ idx,
    (t.table.getD idx []).Pairwise (fun i j => ¬(i.p1 = j.p1 ∧ i.p2 = j.p2))
  ids_nodup : (allItems t).Pairwise (fun i j => i.id ≠ j.id)
  idmap_live : ∀ i ∈ allItems t, t.id_to_item.getD i.id none = some i
  idmap_sound : ∀ k i, t.id_to_item.getD k none = some i → i ∈ allItems t ∧ i.id = k
  gen_live : ∀ i ∈ allItems t, i.id < t.id_gen.next ∧ i.id ∉ t.id_gen.reusable
  gen_nodup : t.id_gen.reusable.Nodup
  gen_lt : ∀ r ∈ t.id_gen.reusable, r < t.id_gen.next

theorem getD_length_le {α : Type} (l : List α) (k : Nat) (d : α) (h : l.length ≤ k) :
    l.getD k d = d := by
  simp [List.getD_eq_getElem?_getD, List.getElem?_eq_none h]

theorem getD_eq_getElem {α : Type} (l : List α) (j : Nat) (d : α) (h : j < l.length) :
    l.getD j d = l[j] := by
  simp [List.getD_eq_getElem?_getD, List.getElem?_eq_getElem h]

theorem getD_set_self {α : Type} (l : List α) (k : Nat) (v d : α) (h : k < l.length) :
    (l.set k v).getD k d = v := by
  simp [List.getD_eq_getElem?_getD, List.getElem?_set_self h]

theorem getD_set_ne {α : Type} (l : List α) (k j : Nat) (v d : α) (h : k ≠ j) :
    (l.set k v).getD j d = l.getD j d := by
  simp [List.getD_eq_getElem?_getD, List.getElem?_set_ne h]

theorem getD_append_left {α : Type} (l l' : List α) (k : Nat) (d : α) (h : k < l.length) :
    ((l ++ l').getD k d) = l.getD k d := by
  simp [List.getD_eq_getElem?_getD, List.getElem?_append_left h]

theorem getD_append_replicate_none {α : Type} (l : List (Option α)) (m k : Nat)
    (h : l.length ≤ k) : (l ++ List.replicate m (none : Option α)).getD k none = none := by
  rcases Nat.lt_or_ge k (l.length + m) with hk | hk
  · rw [List.getD_eq_getElem?_getD, List.getElem?_append_right h]
    simp only [List.getElem?_replicate]
    split <;> rfl
  · rw [getD_length_le]
    simp
    omega

theorem lt_length_of_getD_eq_some {α : Type} {l : List (Option α)} {k : Nat} {x : α}
    (h : l.getD k none = some x) : k < l.length := by
  by_contra hk
  rw [getD_length_le l k none (by omega)] at h
  exact Option.noConfusion h

theorem lt_of_mem_getD {α : Type} {tbl : List (List α)} {x : α} {j : Nat}
    (h : x ∈ tbl.getD j []) : j < tbl.length := by
  by_contra hj
  rw [getD_length_le _ _ _ (by omega)] at h
  exact List.not_mem_nil x h

theorem mem_flatten_iff_getD {α : Type} {tbl : List (List α)} {x : α} :
    x ∈ tbl.flatten ↔ ∃ j, x ∈ tbl.getD j [] := by
  rw [List.mem_flatten]
  constructor
  · rintro ⟨l, hl, hx⟩
    rw [List.mem_iff_getElem] at hl
    obtain ⟨j, hj, rfl⟩ := hl
    exact ⟨j, by rwa [getD_eq_getElem _ _ _ hj]⟩
  · rintro ⟨j, hx⟩
    have hj := lt_of_mem_getD hx
    exact ⟨tbl[j], List.getElem_mem hj, by rwa [getD_eq_getElem _ _ _ hj] at hx⟩

theorem mem_of_mem_flatten_set_cons {α : Type} {tbl : List (List α)} {idx : Nat} {x y : α}
    (h : y ∈ (tbl.set idx (x :: tbl.getD idx [])).flatten) : y = x ∨ y ∈ tbl.flatten := by
  induction tbl generalizing idx with
  | nil => simp at h
  | cons c rest ih =>
    cases idx with
    | zero =>
      simp only [List.set, List.flatten_cons, List.mem_append, List.getD_cons_zero] at h ⊢
      rcases h with h | h
      · rcases List.mem_cons.1 h with h | h
        · exact Or.inl h
        · exact Or.inr (Or.inl h)
      · exact Or.inr (Or.inr h)
    | succ j =>
      simp only [List.set, List.flatten_cons, List.mem_append] at h ⊢
      rcases h with h | h
      · exact Or.inr (Or.inl h)
      · rcases ih (by simpa using h) with h' | h'
        · exact Or.inl h'
        · exact Or.inr (Or.inr h')

theorem mem_flatten_set_cons_of_mem {α : Type} {tbl : List (List α)} {idx : Nat} {x y : α}
    (h : y ∈ tbl.flatten) : y ∈ (tbl.set idx (x :: tbl.getD idx [])).flatten := by
  induction tbl generalizing idx with
  | nil => simp at h
  | cons c rest ih =>
    cases idx with
    | zero =>
      simp only [List.set, List.flatten_cons, List.mem_append] at h ⊢
      rcases h with h | h
      · exact Or.inl (List.mem_cons_of_mem _ h)
      · exact Or.inr h
    | succ j =>
      simp only [List.set, List.flatten_cons, List.mem_append] at h ⊢
      rcases h with h | h
      · exact Or.inl h
      · exact Or.inr (ih h)

theorem self_mem_flatten_set_cons {α : Type} {tbl : List (List α)} {idx : Nat} {x : α}
    (h : idx < tbl.length) : x ∈ (tbl.set idx (x :: tbl.getD idx [])).flatten := by
  induction tbl generalizing idx with
  | nil => simp at h
  | cons c rest ih =>
    cases idx with
    | zero => simp
    | succ j =>
      simp only [List.set, List.flatten_cons, List.mem_append]
      exact Or.inr (ih (by simpa using h))

theorem flatten_set_sublist {α : Type} {tbl : List (List α)} {idx : Nat} {c : List α}
    (h : List.Sublist c (tbl.getD idx [])) : List.Sublist (tbl.set idx c).flatten tbl.flatten := by
  induction tbl generalizing idx with
  | nil => simp
  | cons b rest ih =>
    cases idx with
    | zero =>
      simp only [List.set, List.flatten_cons]
      exact List.Sublist.append (by simpa using h) (List.Sublist.refl _)
    | succ j =>
      simp only [List.set, List.flatten_cons]
      exact List.Sublist.append_left (ih (by simpa using h)) b

theorem pairwise_flatten_set_cons {α : Type} {R : α → α → Prop}
    {tbl : List (List α)} {idx : Nat} {x : α}
    (hp : tbl.flatten.Pairwise R)
    (hx1 : ∀ y ∈ tbl.flatten, R x y) (hx2 : ∀ y ∈ tbl.flatten, R y x) :
    ((tbl.set idx (x :: tbl.getD idx [])).flatten).Pairwise R := by
  induction tbl generalizing idx with
  | nil => simp
  | cons c rest ih =>
    cases idx with
    | zero =>
      have : (((c :: rest).set 0 (x :: (c :: rest).getD 0 [])).flatten) = x :: (c :: rest).flatten := by
        simp
      rw [this, List.pairwise_cons]
      exact ⟨hx1, hp⟩
    | succ j =>
      simp only [List.set, List.flatten_cons] at hp hx1 hx2 ⊢
      rw [List.pairwise_append] at hp ⊢
      obtain ⟨hc, hrest, hcross⟩ := hp
      refine ⟨hc, ih hrest (fun y hy => hx1 y (by simp [hy])) (fun y hy => hx2 y (by simp [hy])), ?_⟩
      intro a ha y hy
      rcases mem_of_mem_flatten_set_cons (by simpa using hy) with rfl | h'
      · exact hx2 a (by simp [ha])
      · exact hcross a ha y h'

theorem SearchList2_none {p1 p2 : Int} {l : List Item2}
    (h : (SearchList2 p1 p2 l).1 = none) : ∀ x ∈ l, ¬(x.p1 = p1 ∧ x.p2 = p2) := by
  induction l with
  | nil => simp
  | cons a rest ih =>
    rw [SearchList2] at h
    split at h
    · exact absurd h (by simp)
    · intro x hx
      rcases List.mem_cons.1 hx with rfl | hx
      · assumption
      · exact ih h x hx

theorem SearchList2_some {p1 p2 : Int} {l : List Item2} {x : Item2}
    (h : (SearchList2 p1 p2 l).1 = some x) : x ∈ l ∧ x.p1 = p1 ∧ x.p2 = p2 := by
  induction l with
  | nil => simp [SearchList2] at h
  | cons a rest ih =>
    rw [SearchList2] at h
    split at h
    · obtain rfl : a = x := by simpa using h
      exact ⟨List.mem_cons_self _ _, by assumption⟩
    · obtain ⟨h1, h2⟩ := ih h
      exact ⟨List.mem_cons_of_mem _ h1, h2⟩

theorem SearchList2_advances (p1 p2 : Int) (l : List Item2) :
    (SearchList2 p1 p2 l).2 = advances2 p1 p2 l := by
  induction l with
  | nil => rfl
  | cons a rest ih =>
    rw [SearchList2, advances2]
    split
    · rfl
    · simp [ih]

theorem SearchList3_some {p1 p2 p3 : Int} {l : List Item4} {x : Item4}
    (h : (SearchList3 p1 p2 p3 l).1 = some x) :
    x ∈ l ∧ x.p1 = p1 ∧ x.p2 = p2 ∧ x.p3 = p3 := by
  induction l with
  | nil => simp [SearchList3] at h
  | cons a rest ih =>
    rw [SearchList3] at h
    split at h
    · obtain rfl : a = x := by simpa using h
      exact ⟨List.mem_cons_self _ _, by assumption⟩
    · obtain ⟨h1, h2⟩ := ih h
      exact ⟨List.mem_cons_of_mem _ h1, h2⟩

theorem removeFirst_eq_none_iff {item : Item2} {l : List Item2} :
    removeFirst item l = none ↔ item ∉ l := by
  induction l with
  | nil => simp [removeFirst]
  | cons a rest ih =>
    rw [removeFirst]
    split
    · subst a
      simp
    · rename_i hne
      simp only [Option.map_eq_none', ih, List.mem_cons]
      constructor
      · intro h hmem
        rcases hmem with rfl | hmem
        · exact hne rfl
        · exact h hmem
      · intro h hmem
        exact h (Or.inr hmem)

theorem mem_of_removeFirst_some {item : Item2} {l l' : List Item2}
    (h : removeFirst item l = some l') : item ∈ l := by
  by_contra hmem
  rw [← removeFirst_eq_none_iff] at hmem
  rw [hmem] at h
  exact Option.noConfusion h

theorem removeFirst_sublist {item : Item2} {l l' : List Item2}
    (h : removeFirst item l = some l') : List.Sublist l' l := by
  induction l generalizing l' with
  | nil => simp [removeFirst] at h
  | cons a rest ih =>
    rw [removeFirst] at h
    split at h
    · obtain rfl : rest = l' := by simpa using h
      exact List.sublist_cons_self _ _
    · rcases Option.map_eq_some'.1 h with ⟨r, hr, rfl⟩
      exact List.Sublist.cons₂ a (ih hr)

theorem removeFirst_mem_of_ne {item x : Item2} {l l' : List Item2}
    (h : removeFirst item l = some l') (hx : x ∈ l) (hne : x ≠ item) : x ∈ l' := by
  induction l generalizing l' with
  | nil => simp at hx
  | cons a rest ih =>
    rw [removeFirst] at h
    split at h
    · obtain rfl : rest = l' := by simpa using h
      rename_i heq
      subst heq
      rcases List.mem_cons.1 hx with rfl | hx
      · exact absurd rfl hne
      · exact hx
    · rcases Option.map_eq_some'.1 h with ⟨r, hr, rfl⟩
      rcases List.mem_cons.1 hx with rfl | hx
      · exact List.mem_cons_self _ _
      · exact List.mem_cons_of_mem _ (ih hr hx)

theorem removeFirst_no_key {item : Item2} {l l' : List Item2}
    (hp : l.Pairwise (fun i j => ¬(i.p1 = j.p1 ∧ i.p2 = j.p2)))
    (h : removeFirst item l = some l') :
    ∀ x ∈ l', ¬(x.p1 = item.p1 ∧ x.p2 = item.p2) := by
  induction l generalizing l' with
  | nil => simp [removeFirst] at h
  | cons a rest ih =>
    rw [List.pairwise_cons] at hp
    obtain ⟨ha, hrest⟩ := hp
    rw [removeFirst] at h
    split at h
    · obtain rfl : rest = l' := by simpa using h
      rename_i heq
      subst heq
      intro x hx hk
      exact ha x hx ⟨hk.1.symm, hk.2.symm⟩
    · rcases Option.map_eq_some'.1 h with ⟨r, hr, rfl⟩
      intro x hx hk
      rcases List.mem_cons.1 hx with rfl | hx
      · exact ha item (mem_of_removeFirst_some hr) hk
      · exact ih hrest hr x hx hk

theorem canon2_comm {p1 p2 : Int} (h : p1 ≠ p2) : canon2 p1 p2 = canon2 p2 p1 := by
  unfold canon2
  rcases lt_trichotomy p1 p2 with hlt | rfl | hlt
  · rw [if_neg (by omega), if_pos (by omega)]
  · exact absurd rfl h
  · rw [if_pos (by omega), if_neg (by omega)]

theorem canon2_le (p1 p2 : Int) : (canon2 p1 p2).1 ≤ (canon2 p1 p2).2 := by
  unfold canon2
  split <;> omega

theorem GetSorted_found {t : HashTable2} {p1 p2 : Int} {node : Item2}
    (h : (SearchList2 p1 p2 (t.table.getD (t.hash p1 p2) [])).1 = some node) :
    t.GetSorted p1 p2 =
      (node,
       { t with
         nqueries := t.nqueries + 1
         ncollisions :=
           t.ncollisions + (SearchList2 p1 p2 (t.table.getD (t.hash p1 p2) [])).2 }) := by
  unfold HashTable2.GetSorted
  simp only [h]

theorem GetSorted_create {t : HashTable2} {p1 p2 : Int}
    (h : (SearchList2 p1 p2 (t.table.getD (t.hash p1 p2) [])).1 = none) :
    t.GetSorted p1 p2 =
      (⟨(t.id_gen.Get).1, p1, p2⟩,
       { table := t.table.set (t.hash p1 p2)
           (⟨(t.id_gen.Get).1, p1, p2⟩ :: t.table.getD (t.hash p1 p2) [])
         mask := t.mask
         id_gen := (t.id_gen.Get).2
         id_to_item :=
           (if t.id_to_item.length ≤ (t.id_gen.Get).1 then
              t.id_to_item ++
                List.replicate ((t.id_gen.Get).1 + 1 - t.id_to_item.length) none
            else t.id_to_item).set (t.id_gen.Get).1 (some ⟨(t.id_gen.Get).1, p1, p2⟩)
         used_bins :=
           if t.new_bin.getD (t.hash p1 p2) false then
             t.used_bins ++ [t.hash p1 p2]
           else t.used_bins
         new_bin :=
           if t.new_bin.getD (t.hash p1 p2) false then
             t.new_bin.set (t.hash p1 p2) false
           else t.new_bin
         nqueries := t.nqueries + 1
         ncollisions :=
           t.ncollisions + (SearchList2 p1 p2 (t.table.getD (t.hash p1 p2) [])).2 }) := by
  unfold HashTable2.GetSorted
  simp only [h]

theorem hash_lt {t : HashTable2} (hm : t.mask = t.table.length - 1)
    (hp : 0 < t.table.length) (p1 p2 : Int) : t.hash p1 p2 < t.table.length := by
  have h : ((984120265 * p1 + 125965121 * p2) % (2 ^ 32 : Int)).toNat &&& t.mask ≤ t.mask :=
    Nat.and_le_right
  unfold HashTable2.hash
  omega

theorem Get_id_fresh {t : HashTable2}
    (hgl : ∀ i ∈ allItems t, i.id < t.id_gen.next ∧ i.id ∉ t.id_gen.reusable) :
    ∀ y ∈ allItems t, y.id ≠ (t.id_gen.Get).1 := by
  intro y hy
  obtain ⟨h1, h2⟩ := hgl y hy
  rcases hg : t.id_gen with ⟨n, rs⟩
  rw [hg] at h1 h2
  dsimp only at h1 h2
  cases rs with
  | nil =>
    have he : (IdGenerator.Get ⟨n, []⟩).1 = n := rfl
    rw [he]
    omega
  | cons r rs' =>
    have he : (IdGenerator.Get ⟨n, r :: rs'⟩).1 = r := rfl
    rw [he]
    intro hc
    exact h2 (by rw [hc]; exact List.mem_cons_self _ _)

theorem IdGen_Get_nil (n : Nat) :
    (⟨n, []⟩ : IdGenerator).Get = (n, ⟨n + 1, []⟩) := rfl

theorem IdGen_Get_cons (n r : Nat) (rs : List Nat) :
    (⟨n, r :: rs⟩ : IdGenerator).Get = (r, ⟨n, rs⟩) := rfl

theorem IdGen_step (g : IdGenerator) (hn : g.reusable.Nodup)
    (hlt : ∀ r ∈ g.reusable, r < g.next) :
    ((g.Get).1 < (g.Get).2.next ∧ (g.Get).1 ∉ (g.Get).2.reusable) ∧
    (∀ k, k < g.next → k ∉ g.reusable → k < (g.Get).2.next ∧ k ∉ (g.Get).2.reusable) ∧
    (g.Get).2.reusable.Nodup ∧
    (∀ r ∈ (g.Get).2.reusable, r < (g.Get).2.next) := by
  rcases g with ⟨n, rs⟩
  cases rs with
  | nil =>
    rw [IdGen_Get_nil]
    dsimp only
    refine ⟨⟨by omega, by simp⟩, ?_, by simp, by simp⟩
    intro k hk hkm
    exact ⟨by omega, by simp⟩
  | cons r rs' =>
    rw [IdGen_Get_cons]
    dsimp only at hn hlt ⊢
    rw [List.nodup_cons] at hn
    refine ⟨⟨hlt r (List.mem_cons_self _ _), hn.1⟩, ?_, hn.2, ?_⟩
    · intro k hk hkm
      exact ⟨hk, fun hc => hkm (List.mem_cons_of_mem _ hc)⟩
    · intro x hx
      exact hlt x (List.mem_cons_of_mem _ hx)

theorem Inv2_GetSorted (t : HashTable2) (p1 p2 : Int) (ht : Inv2 t) :
    Inv2 (t.GetSorted p1 p2).2 := by
  obtain ⟨hsz, hmask, hhash, hck, hids, himl, hims, hgl, hgn, hglt⟩ := ht
  cases hf : (SearchList2 p1 p2 (t.table.getD (t.hash p1 p2) [])).1 with
  | some node =>
    rw [GetSorted_found hf]
    exact ⟨hsz, hmask, hhash, hck, hids, himl, hims, hgl, hgn, hglt⟩
  | none =>
    rw [GetSorted_create hf]
    have hidxlt : t.hash p1 p2 < t.table.length := hash_lt hmask hsz p1 p2
    have hfresh : ∀ y ∈ allItems t, y.id ≠ (t.id_gen.Get).1 := Get_id_fresh hgl
    obtain ⟨hg1, hg2, hg3, hg4⟩ := IdGen_step t.id_gen hgn hglt
    have hklt : (t.id_gen.Get).1 <
        (if t.id_to_item.length ≤ (t.id_gen.Get).1 then
           t.id_to_item ++ List.replicate ((t.id_gen.Get).1 + 1 - t.id_to_item.length) none
         else t.id_to_item).length := by
      split
      · simp
        omega
      · omega
    refine ⟨?_, ?_, ?_, ?_, ?_, ?_, ?_, ?_, ?_, ?_⟩
    · dsimp only
      simpa using hsz
    · dsimp only
      rw [List.length_set]
      exact hmask
    · intro j i hi
      dsimp only at hi ⊢
      by_cases hj : j = t.hash p1 p2
      · subst hj
        rw [getD_set_self _ _ _ _ hidxlt] at hi
        rcases List.mem_cons.1 hi with rfl | hi
        · rfl
        · exact hhash _ i hi
      · rw [getD_set_ne _ _ _ _ _ (Ne.symm hj)] at hi
        exact hhash j i hi
    · intro j
      dsimp only
      by_cases hj : j = t.hash p1 p2
      · subst hj
        rw [getD_set_self _ _ _ _ hidxlt]
        rw [List.pairwise_cons]
        refine ⟨?_, hck _⟩
        intro y hy hc
        exact SearchList2_none hf y hy ⟨hc.1.symm, hc.2.symm⟩
      · rw [getD_set_ne _ _ _ _ _ (Ne.symm hj)]
        exact hck j
    · refine pairwise_flatten_set_cons hids ?_ ?_
      · intro y hy
        exact fun hc => hfresh y hy hc.symm
      · intro y hy
        exact hfresh y hy
    · intro i hi
      dsimp only at hi ⊢
      rcases mem_of_mem_flatten_set_cons hi with rfl | hi'
      · rw [getD_set_self _ _ _ _ hklt]
      · have hne : (t.id_gen.Get).1 ≠ i.id := fun hc => hfresh i hi' hc.symm
        rw [getD_set_ne _ _ _ _ _ hne]
        have hlt2 : i.id < t.id_to_item.length := lt_length_of_getD_eq_some (himl i hi')
        split
        · rw [getD_append_left _ _ _ _ hlt2]
          exact himl i hi'
        · exact himl i hi'
    · intro k i hk
      dsimp only at hk ⊢
      by_cases hkk : k = (t.id_gen.Get).1
      · subst hkk
        rw [getD_set_self _ _ _ _ hklt] at hk
        obtain rfl : (⟨(t.id_gen.Get).1, p1, p2⟩ : Item2) = i := by simpa using hk
        exact ⟨self_mem_flatten_set_cons hidxlt, rfl⟩
      · rw [getD_set_ne _ _ _ _ _ (Ne.symm hkk)] at hk
        by_cases hkl : k < t.id_to_item.length
        · have hk' : t.id_to_item.getD k none = some i := by
            revert hk
            split
            · rw [getD_append_left _ _ _ _ hkl]
              exact id
            · exact id
          obtain ⟨hmem, hid⟩ := hims k i hk'
          exact ⟨mem_flatten_set_cons_of_mem hmem, hid⟩
        · exfalso
          revert hk
          split
          · rw [getD_append_replicate_none _ _ _ (by omega)]
            exact fun hc => Option.noConfusion hc
          · rw [getD_length_le _ _ _ (by omega)]
            exact fun hc => Option.noConfusion hc
    · intro i hi
      dsimp only at hi ⊢
      rcases mem_of_mem_flatten_set_cons hi with rfl | hi'
      · exact hg1
      · exact hg2 i.id (hgl i hi').1 (hgl i hi').2
    · exact hg3
    · exact hg4

theorem Delete_some {t : HashTable2} {item : Item2} {chain : List Item2}
    (h : removeFirst item (t.table.getD (t.hash item.p1 item.p2) []) = some chain) :
    t.Delete item =
      some { t with
        table := t.table.set (t.hash item.p1 item.p2) chain
        id_to_item := t.id_to_item.set item.id none
        id_gen := t.id_gen.Reuse item.id } := by
  unfold HashTable2.Delete
  simp only [h]

theorem Delete_none_shape {t : HashTable2} {item : Item2}
    (h : removeFirst item (t.table.getD (t.hash item.p1 item.p2) []) = none) :
    t.Delete item = none := by
  unfold HashTable2.Delete
  simp only [h]

theorem Inv2_Delete {t t' : HashTable2} {item : Item2} (ht : Inv2 t)
    (hd : t.Delete item = some t') : Inv2 t' := by
  obtain ⟨hsz, hmask, hhash, hck, hids, himl, hims, hgl, hgn, hglt⟩ := ht
  cases hr : removeFirst item (t.table.getD (t.hash item.p1 item.p2) []) with
  | none =>
    rw [Delete_none_shape hr] at hd
    exact Option.noConfusion hd
  | some chain =>
    rw [Delete_some hr] at hd
    injection hd with hd
    subst hd
    have hmem0 : item ∈ t.table.getD (t.hash item.p1 item.p2) [] :=
      mem_of_removeFirst_some hr
    have hidxlt : t.hash item.p1 item.p2 < t.table.length := lt_of_mem_getD hmem0
    have hitem : item ∈ allItems t := mem_flatten_iff_getD.2 ⟨_, hmem0⟩
    have hsub : List.Sublist chain (t.table.getD (t.hash item.p1 item.p2) []) :=
      removeFirst_sublist hr
    have hflat :
        List.Sublist (t.table.set (t.hash item.p1 item.p2) chain).flatten
          t.table.flatten := flatten_set_sublist hsub
    have hnokey : ∀ x ∈ chain, ¬(x.p1 = item.p1 ∧ x.p2 = item.p2) :=
      removeFirst_no_key (hck _) hr
    have hnomem :
        ∀ x ∈ (t.table.set (t.hash item.p1 item.p2) chain).flatten, x ≠ item := by
      intro x hx
      obtain ⟨j, hj⟩ := mem_flatten_iff_getD.1 hx
      by_cases hjj : j = t.hash item.p1 item.p2
      · subst hjj
        rw [getD_set_self _ _ _ _ hidxlt] at hj
        intro hc
        subst hc
        exact hnokey x hj ⟨rfl, rfl⟩
      · rw [getD_set_ne _ _ _ _ _ (Ne.symm hjj)] at hj
        intro hc
        subst hc
        exact hjj (hhash j x hj).symm
    have hsymm : Symmetric (fun i j : Item2 => i.id ≠ j.id) := by
      intro a b h
      exact h.symm
    have hidne : ∀ x ∈ allItems t, x ≠ item → x.id ≠ item.id := by
      intro x hx hne
      exact List.Pairwise.forall hsymm hids hx hitem hne
    have hitemlt : item.id < t.id_to_item.length :=
      lt_length_of_getD_eq_some (himl item hitem)
    refine ⟨?_, ?_, ?_, ?_, ?_, ?_, ?_, ?_, ?_, ?_⟩
    · dsimp only
      simpa using hsz
    · dsimp only
      rw [List.length_set]
      exact hmask
    · intro j i hi
      dsimp only at hi ⊢
      by_cases hj : j = t.hash item.p1 item.p2
      · subst hj
        rw [getD_set_self _ _ _ _ hidxlt] at hi
        exact hhash _ i (hsub.subset hi)
      · rw [getD_set_ne _ _ _ _ _ (Ne.symm hj)] at hi
        exact hhash j i hi
    · intro j
      dsimp only
      by_cases hj : j = t.hash item.p1 item.p2
      · subst hj
        rw [getD_set_self _ _ _ _ hidxlt]
        exact List.Pairwise.sublist hsub (hck _)
      · rw [getD_set_ne _ _ _ _ _ (Ne.symm hj)]
        exact hck j
    · exact List.Pairwise.sublist hflat hids
    · intro i hi
      dsimp only at hi ⊢
      have hio : i ∈ allItems t := hflat.subset hi
      have hne : i.id ≠ item.id := hidne i hio (hnomem i hi)
      rw [getD_set_ne _ _ _ _ _ (Ne.symm hne)]
      exact himl i hio
    · intro k i hk
      dsimp only at hk ⊢
      by_cases hkk : k = item.id
      · subst hkk
        rw [getD_set_self _ _ _ _ hitemlt] at hk
        exact Option.noConfusion hk
      · rw [getD_set_ne _ _ _ _ _ (Ne.symm hkk)] at hk
        obtain ⟨hm, hid⟩ := hims k i hk
        refine ⟨?_, hid⟩
        obtain ⟨j, hj⟩ := mem_flatten_iff_getD.1 hm
        by_cases hjj : j = t.hash item.p1 item.p2
        · subst hjj
          have hine : i ≠ item := by
            intro hc
            subst hc
            exact hkk hid.symm
          refine mem_flatten_iff_getD.2 ⟨t.hash item.p1 item.p2, ?_⟩
          rw [getD_set_self _ _ _ _ hidxlt]
          exact removeFirst_mem_of_ne hr hj hine
        · refine mem_flatten_iff_getD.2 ⟨j, ?_⟩
          rw [getD_set_ne _ _ _ _ _ (Ne.symm hjj)]
          exact hj
    · intro i hi
      dsimp only [IdGenerator.Reuse] at hi ⊢
      have hio : i ∈ allItems t := hflat.subset hi
      have hne : i.id ≠ item.id := hidne i hio (hnomem i hi)
      obtain ⟨h1, h2⟩ := hgl i hio
      refine ⟨h1, ?_⟩
      intro hc
      rcases List.mem_cons.1 hc with hc | hc
      · exact hne hc
      · exact h2 hc
    · dsimp only [IdGenerator.Reuse]
      rw [List.nodup_cons]
      exact ⟨(hgl item hitem).2, hgn⟩
    · intro r hrr
      dsimp only [IdGenerator.Reuse] at hrr ⊢
      rcases List.mem_cons.1 hrr with rfl | hrr
      · exact (hgl item hitem).1
      · exact hglt r hrr

theorem getD_replicate {α : Type} (n j : Nat) (d : α) :
    (List.replicate n d).getD j d = d := by
  simp only [List.getD_eq_getElem?_getD, List.getElem?_replicate]
  split <;> rfl

theorem flatten_replicate_nil {α : Type} (n : Nat) :
    (List.replicate n ([] : List α)).flatten = [] := by
  induction n with
  | zero => rfl
  | succ m ih => simp [List.replicate, ih]

theorem Inv2_init {size : Int} {t : HashTable2} (hpos : 0 < size)
    (h : hashTableNew size = some t) : Inv2 t := by
  simp only [hashTableNew] at h
  split at h
  · exact Option.noConfusion h
  · injection h with h
    subst h
    refine ⟨?_, ?_, ?_, ?_, ?_, ?_, ?_, ?_, ?_, ?_⟩
    · dsimp only
      simp only [List.length_replicate]
      omega
    · dsimp only
      simp only [List.length_replicate]
      omega
    · intro j i hi
      dsimp only at hi
      rw [getD_replicate] at hi
      exact absurd hi (List.not_mem_nil i)
    · intro j
      dsimp only
      rw [getD_replicate]
      exact List.Pairwise.nil
    · dsimp only [allItems]
      rw [flatten_replicate_nil]
      exact List.Pairwise.nil
    · intro i hi
      dsimp only [allItems] at hi
      rw [flatten_replicate_nil] at hi
      exact absurd hi (List.not_mem_nil i)
    · intro k i hk
      dsimp only at hk
      exact Option.noConfusion hk
    · intro i hi
      dsimp only [allItems] at hi
      rw [flatten_replicate_nil] at hi
      exact absurd hi (List.not_mem_nil i)
    · dsimp only
      exact List.Pairwise.nil
    · intro r hr
      dsimp only at hr
      exact absurd hr (List.not_mem_nil r)

theorem Reachable2_inv {t : HashTable2} (h : Reachable2 t) : Inv2 t := by
  induction h with
  | init size t hpos hnew => exact Inv2_init hpos hnew
  | get t p1 p2 _ ih => exact Inv2_GetSorted t (canon2 p1 p2).1 (canon2 p1 p2).2 ih
  | del t t' item _ hd ih => exact Inv2_Delete ih hd

theorem GetSorted_stable (t : HashTable2) (p1 p2 : Int)
    (hlen : 0 < t.table.length) (hmask : t.mask = t.table.length - 1) :
    (((t.GetSorted p1 p2).2.GetSorted p1 p2).1 = (t.GetSorted p1 p2).1) ∧
    ((t.GetSorted p1 p2).2.GetSorted p1 p2).2.table = (t.GetSorted p1 p2).2.table ∧
    ((t.GetSorted p1 p2).2.GetSorted p1 p2).2.used_bins = (t.GetSorted p1 p2).2.used_bins ∧
    ((t.GetSorted p1 p2).2.GetSorted p1 p2).2.new_bin = (t.GetSorted p1 p2).2.new_bin ∧
    ((t.GetSorted p1 p2).2.GetSorted p1 p2).2.id_to_item = (t.GetSorted p1 p2).2.id_to_item ∧
    ((t.GetSorted p1 p2).2.GetSorted p1 p2).2.id_gen = (t.GetSorted p1 p2).2.id_gen := by
  cases hf : (SearchList2 p1 p2 (t.table.getD (t.hash p1 p2) [])).1 with
  | some node =>
    have h1 := GetSorted_found hf
    have hf2 : (SearchList2 p1 p2
        ((t.GetSorted p1 p2).2.table.getD ((t.GetSorted p1 p2).2.hash p1 p2) [])).1
        = some node := by
      rw [h1]
      exact hf
    have h2 := GetSorted_found hf2
    rw [h2, h1]
    exact ⟨rfl, rfl, rfl, rfl, rfl, rfl⟩
  | none =>
    have h1 := GetSorted_create hf
    have hidxlt : t.hash p1 p2 < t.table.length := hash_lt hmask hlen p1 p2
    have hf2 : (SearchList2 p1 p2
        ((t.GetSorted p1 p2).2.table.getD ((t.GetSorted p1 p2).2.hash p1 p2) [])).1
        = some ⟨(t.id_gen.Get).1, p1, p2⟩ := by
      rw [h1]
      show (SearchList2 p1 p2
        ((t.table.set (t.hash p1 p2)
            (⟨(t.id_gen.Get).1, p1, p2⟩ :: t.table.getD (t.hash p1 p2) [])).getD
          (t.hash p1 p2) [])).1 = _
      rw [getD_set_self _ _ _ _ hidxlt]
      rw [SearchList2]
      simp
    have h2 := GetSorted_found hf2
    rw [h2, h1]
    exact ⟨rfl, rfl, rfl, rfl, rfl, rfl⟩

/-- C1: for every pair of integers `p1 ≠ p2` and any table state, `Get(p1,p2)`
and `Get(p2,p1)` coincide completely (same returned item and same resulting
state): the 2-ary key is canonicalized by ascending swap before hashing and
chain comparison, so argument order never affects which item is found or
created. -/
theorem C1_Get_order_independent (t : HashTable2) (p1 p2 : Int) (h : p1 ≠ p2) :
    t.Get p1 p2 = t.Get p2 p1 := by
  unfold HashTable2.Get
  rw [canon2_comm h]

theorem C1_witness :
    (1 : Int) ≠ 2 ∧ tbl4.Get 1 2 = tbl4.Get 2 1 :=
  ⟨by decide, C1_Get_order_independent tbl4 1 2 (by decide)⟩

/-- C3: `Get` is idempotent on reachable tables: a repeated `Get` with any
argument order of the same canonical key returns the identical item and
mutates neither the buckets, the touched-bucket list, the `new_bin` flags,
the identifier index nor the id allocator (only the diagnostic counters
move). -/
theorem C3_Get_idempotent (t : HashTable2) (p1 p2 q1 q2 : Int)
    (hr : Reachable2 t) (hc : canon2 p1 p2 = canon2 q1 q2) :
    (((t.Get p1 p2).2.Get q1 q2).1 = (t.Get p1 p2).1) ∧
    ((t.Get p1 p2).2.Get q1 q2).2.table = (t.Get p1 p2).2.table ∧
    ((t.Get p1 p2).2.Get q1 q2).2.used_bins = (t.Get p1 p2).2.used_bins ∧
    ((t.Get p1 p2).2.Get q1 q2).2.new_bin = (t.Get p1 p2).2.new_bin ∧
    ((t.Get p1 p2).2.Get q1 q2).2.id_to_item = (t.Get p1 p2).2.id_to_item ∧
    ((t.Get p1 p2).2.Get q1 q2).2.id_gen = (t.Get p1 p2).2.id_gen := by
  have hi := Reachable2_inv hr
  simp only [HashTable2.Get]
  rw [← hc]
  exact GetSorted_stable t (canon2 p1 p2).1 (canon2 p1 p2).2 hi.size_pos hi.mask_eq

theorem C3_witness :
    canon2 0 1 = canon2 1 0 ∧
    ((((tbl4.Get 0 1).2.Get 1 0).1 = (tbl4.Get 0 1).1) ∧
     ((tbl4.Get 0 1).2.Get 1 0).2.table = (tbl4.Get 0 1).2.table ∧
     ((tbl4.Get 0 1).2.Get 1 0).2.used_bins = (tbl4.Get 0 1).2.used_bins ∧
     ((tbl4.Get 0 1).2.Get 1 0).2.new_bin = (tbl4.Get 0 1).2.new_bin ∧
     ((tbl4.Get 0 1).2.Get 1 0).2.id_to_item = (tbl4.Get 0 1).2.id_to_item ∧
     ((tbl4.Get 0 1).2.Get 1 0).2.id_gen = (tbl4.Get 0 1).2.id_gen) :=
  ⟨by decide,
   C3_Get_idempotent tbl4 0 1 1 0
     (Reachable2.init 4 tbl4 (by decide) (by decide)) (by decide)⟩

/-- C8: `Delete` on an item that is not on the bucket chain of its stored
key fails fatally (modelled by `none`, the `mfem_error` abort) and in
particular performs none of the later updates (no identifier slot is cleared
and no id is released); it never silently returns. -/
theorem C8_Delete_not_found (t : HashTable2) (item : Item2)
    (h : item ∉ t.table.getD (t.hash item.p1 item.p2) []) :
    t.Delete item = none :=
  Delete_none_shape (removeFirst_eq_none_iff.2 h)

theorem C8_witness :
    ((⟨0, 0, 1⟩ : Item2) ∉
      tbl4.table.getD (tbl4.hash (⟨0, 0, 1⟩ : Item2).p1 (⟨0, 0, 1⟩ : Item2).p2) []) ∧
    tbl4.Delete ⟨0, 0, 1⟩ = none :=
  ⟨by decide, C8_Delete_not_found tbl4 ⟨0, 0, 1⟩ (by decide)⟩

/-- C4: deleting a live item from a reachable table succeeds, and afterwards
`Peek` with the item's original key (in either input order) is absent,
`Peek` by the item's id is absent, the id is released to the allocator, and
the item was unlinked from the bucket chain derived from its stored key. -/
theorem C4_Delete_then_absent (t : HashTable2) (item : Item2) (p1 p2 : Int)
    (hr : Reachable2 t) (hlive : item ∈ allItems t)
    (hkey : canon2 p1 p2 = (item.p1, item.p2)) :
    ∃ t', t.Delete item = some t' ∧
      (t'.Peek p1 p2).1 = none ∧
      t'.PeekId item.id = none ∧
      t'.id_gen = t.id_gen.Reuse item.id ∧
      t'.table = t.table.set (t.hash item.p1 item.p2)
        ((removeFirst item (t.table.getD (t.hash item.p1 item.p2) [])).getD []) := by
  obtain ⟨hsz, hmask, hhash, hck, hids, himl, hims, hgl, hgn, hglt⟩ := Reachable2_inv hr
  obtain ⟨j, hj⟩ := mem_flatten_iff_getD.1 hlive
  have hjidx : j = t.hash item.p1 item.p2 := (hhash j item hj).symm
  subst hjidx
  have hidxlt : t.hash item.p1 item.p2 < t.table.length := lt_of_mem_getD hj
  cases hrem : removeFirst item (t.table.getD (t.hash item.p1 item.p2) []) with
  | none => exact absurd hj (removeFirst_eq_none_iff.1 hrem)
  | some chain =>
    have hnone : (SearchList2 item.p1 item.p2 chain).1 = none := by
      cases hs : (SearchList2 item.p1 item.p2 chain).1 with
      | none => rfl
      | some x =>
        obtain ⟨hx, hx1, hx2⟩ := SearchList2_some hs
        exact absurd ⟨hx1, hx2⟩ (removeFirst_no_key (hck _) hrem x hx)
    refine ⟨_, Delete_some hrem, ?_, ?_, rfl, ?_⟩
    · simp only [HashTable2.Peek]
      rw [hkey]
      show (SearchList2 item.p1 item.p2
        ((t.table.set (t.hash item.p1 item.p2) chain).getD
          (t.hash item.p1 item.p2) [])).1 = none
      rw [getD_set_self _ _ _ _ hidxlt]
      exact hnone
    · show (t.id_to_item.set item.id none).getD item.id none = none
      have hlt2 : item.id < t.id_to_item.length :=
        lt_length_of_getD_eq_some (himl item hlive)
      rw [getD_set_self _ _ _ _ hlt2]
    · rfl

theorem C4_witness :
    ((⟨0, 0, 1⟩ : Item2) ∈ allItems tblA) ∧
    (∃ t', tblA.Delete ⟨0, 0, 1⟩ = some t' ∧
      (t'.Peek 1 0).1 = none ∧
      t'.PeekId (⟨0, 0, 1⟩ : Item2).id = none ∧
      t'.id_gen = tblA.id_gen.Reuse (⟨0, 0, 1⟩ : Item2).id ∧
      t'.table = tblA.table.set
        (tblA.hash (⟨0, 0, 1⟩ : Item2).p1 (⟨0, 0, 1⟩ : Item2).p2)
        ((removeFirst ⟨0, 0, 1⟩
          (tblA.table.getD
            (tblA.hash (⟨0, 0, 1⟩ : Item2).p1 (⟨0, 0, 1⟩ : Item2).p2) [])).getD [])) :=
  ⟨by decide,
   C4_Delete_then_absent tblA ⟨0, 0, 1⟩ 1 0
     (Reachable2.get tbl4 0 1 (Reachable2.init 4 tbl4 (by decide) (by decide)))
     (by decide) (by decide)⟩

/-- C5: in every reachable state no two live items share an id, and ids are
reused: immediately after `Delete` releases an item's id, the next `Get` that
creates a new item (its key is absent, witnessed by a NULL `Peek`) assigns
that released id to the new item. -/
theorem C5_id_unique_and_reuse :
    (∀ t, Reachable2 t → (allItems t).Pairwise (fun i j => i.id ≠ j.id)) ∧
    (∀ (t t' : HashTable2) (item : Item2) (p1 p2 : Int),
      t.Delete item = some t' →
      (t'.Peek p1 p2).1 = none →
      ((t'.Get p1 p2).1).id = item.id) := by
  constructor
  · intro t hr
    exact (Reachable2_inv hr).ids_nodup
  · intro t t' item p1 p2 hd hp
    cases hrem : removeFirst item (t.table.getD (t.hash item.p1 item.p2) []) with
    | none =>
      rw [Delete_none_shape hrem] at hd
      exact Option.noConfusion hd
    | some chain =>
      rw [Delete_some hrem] at hd
      injection hd with hd
      subst hd
      simp only [HashTable2.Peek] at hp
      simp only [HashTable2.Get]
      rw [GetSorted_create hp]
      rfl

theorem C5_witness :
    (allItems tblA).Pairwise (fun i j => i.id ≠ j.id) ∧
    ((tblD.Get 2 3).1).id = (⟨0, 0, 1⟩ : Item2).id :=
  ⟨C5_id_unique_and_reuse.1 tblA
     (Reachable2.get tbl4 0 1 (Reachable2.init 4 tbl4 (by decide) (by decide))),
   C5_id_unique_and_reuse.2 tblA tblD ⟨0, 0, 1⟩ 2 3 (by decide) (by decide)⟩

/-- C10: `Peek(id)` reads the identifier index directly: on a reachable table,
for every id below the index's current size the slot holds exactly the live
item assigned that id, or NULL when no live item has that id (never assigned,
or cleared by `Delete`); `Get` only grows the index (new slots NULL except
the created item's), and `Delete` never shrinks it. -/
theorem C10_PeekId_spec (t : HashTable2) (hr : Reachable2 t) :
    (∀ k, k < t.id_to_item.length →
      ((∃ i, t.PeekId k = some i ∧ i ∈ allItems t ∧ i.id = k) ∨
       (t.PeekId k = none ∧ ∀ i ∈ allItems t, i.id ≠ k))) ∧
    (∀ p1 p2 : Int,
      t.id_to_item.length ≤ ((t.Get p1 p2).2).id_to_item.length ∧
      (∀ k, t.id_to_item.length ≤ k → k ≠ ((t.Get p1 p2).1).id →
        ((t.Get p1 p2).2).PeekId k = none)) ∧
    (∀ (item : Item2) (t' : HashTable2), t.Delete item = some t' →
      t'.id_to_item.length = t.id_to_item.length) := by
  obtain ⟨hsz, hmask, hhash, hck, hids, himl, hims, hgl, hgn, hglt⟩ := Reachable2_inv hr
  refine ⟨?_, ?_, ?_⟩
  · intro k hk
    cases hpk : t.PeekId k with
    | some i =>
      obtain ⟨hm, hid⟩ := hims k i hpk
      exact Or.inl ⟨i, rfl, hm, hid⟩
    | none =>
      refine Or.inr ⟨rfl, ?_⟩
      intro i hi hc
      have := himl i hi
      rw [hc] at this
      rw [HashTable2.PeekId] at hpk
      rw [hpk] at this
      exact Option.noConfusion this
  · intro p1 p2
    simp only [HashTable2.Get]
    cases hf : (SearchList2 (canon2 p1 p2).1 (canon2 p1 p2).2
        (t.table.getD (t.hash (canon2 p1 p2).1 (canon2 p1 p2).2) [])).1 with
    | some node =>
      rw [GetSorted_found hf]
      refine ⟨le_refl _, ?_⟩
      intro k hk _
      exact getD_length_le _ _ _ hk
    | none =>
      rw [GetSorted_create hf]
      constructor
      · show t.id_to_item.length ≤ ((if _ then _ else _ : List (Option Item2)).set _ _).length
        rw [List.length_set]
        split
        · simp
        · exact le_refl _
      · intro k hk hkne
        have hkne' : k ≠ (t.id_gen.Get).1 := hkne
        show ((if t.id_to_item.length ≤ (t.id_gen.Get).1 then
            t.id_to_item ++ List.replicate ((t.id_gen.Get).1 + 1 - t.id_to_item.length) none
          else t.id_to_item).set (t.id_gen.Get).1
            (some ⟨(t.id_gen.Get).1, (canon2 p1 p2).1, (canon2 p1 p2).2⟩)).getD k none = none
        rw [getD_set_ne _ _ _ _ _ (Ne.symm hkne')]
        split
        · exact getD_append_replicate_none _ _ _ hk
        · exact getD_length_le _ _ _ hk
  · intro item t' hd
    cases hrem : removeFirst item (t.table.getD (t.hash item.p1 item.p2) []) with
    | none =>
      rw [Delete_none_shape hrem] at hd
      exact Option.noConfusion hd
    | some chain =>
      rw [Delete_some hrem] at hd
      injection hd with hd
      subst hd
      exact List.length_set _ _ _

theorem C10_witness :
    ((∃ i, tblA.PeekId 0 = some i ∧ i ∈ allItems tblA ∧ i.id = 0) ∨
     (tblA.PeekId 0 = none ∧ ∀ i ∈ allItems tblA, i.id ≠ 0)) ∧
    tblD.id_to_item.length = tblA.id_to_item.length :=
  ⟨(C10_PeekId_spec tblA
      (Reachable2.get tbl4 0 1 (Reachable2.init 4 tbl4 (by decide) (by decide)))).1
     0 (by decide),
   (C10_PeekId_spec tblA
      (Reachable2.get tbl4 0 1 (Reachable2.init 4 tbl4 (by decide) (by decide)))).2.2
     ⟨0, 0, 1⟩ tblD (by decide)⟩

/-- C6 (bug evidence): on a size-2 table where `Get(0,1)` and `Get(2,3)` both
land in bucket 1 (the only touched bucket), the table holds two live items but
a fresh iterator visits only the most recently inserted one: the early
`next_bin >= used_bins.Size()` return in `Iterator::next()` truncates the
last touched bucket's chain after its first item, so item `(0,1)` is never
visited (and `~HashTable` would leak it). -/
theorem C6_iterator_skips_item :
    allItems tblB = [⟨1, 2, 3⟩, ⟨0, 0, 1⟩] ∧
    iterItems tblB = [⟨1, 2, 3⟩] ∧
    (⟨0, 0, 1⟩ : Item2) ∈ allItems tblB ∧
    (⟨0, 0, 1⟩ : Item2) ∉ iterItems tblB := by decide

/-- C9 counterexample: in `tblB` the bucket of key `(0,1)` holds two items, so
the scan performed by `Peek(0,1)` makes two key comparisons, yet the query
counter increases by exactly one — not by one per comparison as claimed. -/
theorem C9_counterexample :
    comparisons2 0 1 (tblB.table.getD (tblB.hash 0 1) []) = 2 ∧
    (tblB.Peek 0 1).2.nqueries = tblB.nqueries + 1 ∧
    tblB.nqueries + 1 ≠ tblB.nqueries + 2 := by decide

/-- C9 (amended): every chain scan (by `Get` or `Peek`) increments the query
counter by exactly one — once per scan, regardless of how many key
comparisons the scan makes — while each chain advance increments the
collision counter by one; the teardown diagnostic fires exactly when
cumulative collisions exceed three times cumulative queries. -/
theorem C9_counter_accounting (t : HashTable2) (p1 p2 : Int) :
    ((t.Peek p1 p2).2.nqueries = t.nqueries + 1) ∧
    ((t.Peek p1 p2).2.ncollisions = t.ncollisions +
      advances2 (canon2 p1 p2).1 (canon2 p1 p2).2
        (t.table.getD (t.hash (canon2 p1 p2).1 (canon2 p1 p2).2) [])) ∧
    ((t.Get p1 p2).2.nqueries = t.nqueries + 1) ∧
    ((t.Get p1 p2).2.ncollisions = t.ncollisions +
      advances2 (canon2 p1 p2).1 (canon2 p1 p2).2
        (t.table.getD (t.hash (canon2 p1 p2).1 (canon2 p1 p2).2) [])) ∧
    (teardownWarns t = true ↔ t.ncollisions > 3 * t.nqueries) := by
  refine ⟨rfl, ?_, ?_, ?_, ?_⟩
  · show t.ncollisions + (SearchList2 (canon2 p1 p2).1 (canon2 p1 p2).2
      (t.table.getD (t.hash (canon2 p1 p2).1 (canon2 p1 p2).2) [])).2 = _
    rw [SearchList2_advances]
  · simp only [HashTable2.Get]
    cases hf : (SearchList2 (canon2 p1 p2).1 (canon2 p1 p2).2
        (t.table.getD (t.hash (canon2 p1 p2).1 (canon2 p1 p2).2) [])).1 with
    | some node => rw [GetSorted_found hf]
    | none => rw [GetSorted_create hf]
  · simp only [HashTable2.Get]
    cases hf : (SearchList2 (canon2 p1 p2).1 (canon2 p1 p2).2
        (t.table.getD (t.hash (canon2 p1 p2).1 (canon2 p1 p2).2) [])).1 with
    | some node =>
      rw [GetSorted_found hf]
      show t.ncollisions + (SearchList2 (canon2 p1 p2).1 (canon2 p1 p2).2
        (t.table.getD (t.hash (canon2 p1 p2).1 (canon2 p1 p2).2) [])).2 = _
      rw [SearchList2_advances]
    | none =>
      rw [GetSorted_create hf]
      show t.ncollisions + (SearchList2 (canon2 p1 p2).1 (canon2 p1 p2).2
        (t.table.getD (t.hash (canon2 p1 p2).1 (canon2 p1 p2).2) [])).2 = _
      rw [SearchList2_advances]
  · rw [teardownWarns]
    exact decide_eq_true_iff

theorem cswap_fst (x y : Int) : (cswap x y).1 = min x y := by
  rw [cswap]
  split <;> omega

theorem cswap_snd (x y : Int) : (cswap x y).2 = max x y := by
  rw [cswap]
  split <;> omega

theorem cswap_cons_ms (x y : Int) (s : Multiset Int) :
    (cswap x y).1 ::ₘ (cswap x y).2 ::ₘ s = x ::ₘ y ::ₘ s := by
  rw [cswap]
  split
  · exact Multiset.cons_swap y x s
  · rfl

theorem sort3_sorted (a b c : Int) :
    (sort3 a b c).1 ≤ (sort3 a b c).2.1 ∧ (sort3 a b c).2.1 ≤ (sort3 a b c).2.2 := by
  simp only [sort3, cswap_fst, cswap_snd]
  omega

theorem sort3_ms (a b c : Int) :
    ((sort3 a b c).1 ::ₘ (sort3 a b c).2.1 ::ₘ (sort3 a b c).2.2 ::ₘ 0) =
      (a ::ₘ b ::ₘ c ::ₘ 0 : Multiset Int) := by
  show ((cswap (cswap a b).1 c).1 ::ₘ
      (cswap (cswap a b).2 (cswap (cswap a b).1 c).2).1 ::ₘ
      (cswap (cswap a b).2 (cswap (cswap a b).1 c).2).2 ::ₘ 0) =
    (a ::ₘ b ::ₘ c ::ₘ 0 : Multiset Int)
  rw [Multiset.cons_swap ((cswap (cswap a b).1 c).1)
    ((cswap (cswap a b).2 (cswap (cswap a b).1 c).2).1)]
  rw [Multiset.cons_swap ((cswap (cswap a b).1 c).1)
    ((cswap (cswap a b).2 (cswap (cswap a b).1 c).2).2)]
  rw [cswap_cons_ms]
  rw [Multiset.cons_swap ((cswap (cswap a b).1 c).2) ((cswap (cswap a b).1 c).1)]
  rw [cswap_cons_ms]
  rw [Multiset.cons_swap ((cswap a b).2) ((cswap a b).1)]
  rw [cswap_cons_ms]

theorem sort4_sorted (a b c d : Int) :
    (sort4 a b c d).1 ≤ (sort4 a b c d).2.1 ∧
    (sort4 a b c d).2.1 ≤ (sort4 a b c d).2.2.1 ∧
    (sort4 a b c d).2.2.1 ≤ (sort4 a b c d).2.2.2 := by
  simp only [sort4, sort3, cswap_fst, cswap_snd]
  omega

theorem sort4_ms (a b c d : Int) :
    ((sort4 a b c d).1 ::ₘ (sort4 a b c d).2.1 ::ₘ (sort4 a b c d).2.2.1 ::ₘ
      (sort4 a b c d).2.2.2 ::ₘ 0) = (a ::ₘ b ::ₘ c ::ₘ d ::ₘ 0 : Multiset Int) := by
  show ((cswap (cswap (cswap a b).1 c).1 d).1 ::ₘ
      (sort3 (cswap a b).2 (cswap (cswap a b).1 c).2 (cswap (cswap (cswap a b).1 c).1 d).2).1 ::ₘ
      (sort3 (cswap a b).2 (cswap (cswap a b).1 c).2 (cswap (cswap (cswap a b).1 c).1 d).2).2.1 ::ₘ
      (sort3 (cswap a b).2 (cswap (cswap a b).1 c).2 (cswap (cswap (cswap a b).1 c).1 d).2).2.2 ::ₘ 0) =
    (a ::ₘ b ::ₘ c ::ₘ d ::ₘ 0 : Multiset Int)
  rw [sort3_ms]
  rw [Multiset.cons_swap ((cswap (cswap (cswap a b).1 c).1 d).1) ((cswap a b).2)]
  rw [Multiset.cons_swap ((cswap (cswap (cswap a b).1 c).1 d).1) ((cswap (cswap a b).1 c).2)]
  rw [cswap_cons_ms]
  rw [Multiset.cons_swap ((cswap (cswap a b).1 c).2) ((cswap (cswap a b).1 c).1)]
  rw [cswap_cons_ms]
  rw [Multiset.cons_swap ((cswap a b).2) ((cswap a b).1)]
  rw [cswap_cons_ms]

theorem GetSorted4_key (t : HashTable4) (p1 p2 p3 : Int) :
    ((t.GetSorted p1 p2 p3).1).p1 = p1 ∧ ((t.GetSorted p1 p2 p3).1).p2 = p2 ∧
    ((t.GetSorted p1 p2 p3).1).p3 = p3 := by
  unfold HashTable4.GetSorted
  cases hf : (SearchList3 p1 p2 p3 (t.table.getD (t.hash p1 p2 p3) [])).1 with
  | some node =>
    simp only [hf]
    obtain ⟨_, h1, h2, h3⟩ := SearchList3_some hf
    exact ⟨h1, h2, h3⟩
  | none =>
    simp only [hf]
    exact ⟨trivial, trivial, trivial⟩

theorem Get4_key (t : HashTable4) (a b c d : Int) :
    (((t.Get a b c d).1).p1, ((t.Get a b c d).1).p2, ((t.Get a b c d).1).p3)
      = keep3 a b c d := by
  obtain ⟨h1, h2, h3⟩ :=
    GetSorted4_key t (sort4 a b c d).1 (sort4 a b c d).2.1 (sort4 a b c d).2.2.1
  show (((t.GetSorted (sort4 a b c d).1 (sort4 a b c d).2.1 (sort4 a b c d).2.2.1).1).p1,
      ((t.GetSorted (sort4 a b c d).1 (sort4 a b c d).2.1 (sort4 a b c d).2.2.1).1).p2,
      ((t.GetSorted (sort4 a b c d).1 (sort4 a b c d).2.1 (sort4 a b c d).2.2.1).1).p3)
    = keep3 a b c d
  rw [h1, h2, h3]
  rfl

/-- C2: the 4-ary `Get` depends exactly on the three smallest of its four
inputs: `sort4` sorts the inputs ascending (same multiset), `Get` factors
through `keep3` (the three smallest sorted values) so any two calls agreeing
on the three smallest — in any input order, with any largest value — return
the same item and state, calls differing in the three smallest return
distinct items, and the returned item stores exactly the three smallest (the
largest is discarded, never stored or compared). -/
theorem C2_Get4_three_smallest :
    (∀ a b c d : Int,
      ((sort4 a b c d).1 ≤ (sort4 a b c d).2.1 ∧
       (sort4 a b c d).2.1 ≤ (sort4 a b c d).2.2.1 ∧
       (sort4 a b c d).2.2.1 ≤ (sort4 a b c d).2.2.2) ∧
      ((sort4 a b c d).1 ::ₘ (sort4 a b c d).2.1 ::ₘ (sort4 a b c d).2.2.1 ::ₘ
        (sort4 a b c d).2.2.2 ::ₘ 0) = (a ::ₘ b ::ₘ c ::ₘ d ::ₘ 0 : Multiset Int)) ∧
    (∀ (t : HashTable4) (a b c d a' b' c' d' : Int),
      keep3 a b c d = keep3 a' b' c' d' → t.Get a b c d = t.Get a' b' c' d') ∧
    (∀ (t u : HashTable4) (a b c d a' b' c' d' : Int),
      keep3 a b c d ≠ keep3 a' b' c' d' → (t.Get a b c d).1 ≠ (u.Get a' b' c' d').1) ∧
    (∀ (t : HashTable4) (a b c d : Int),
      (((t.Get a b c d).1).p1, ((t.Get a b c d).1).p2, ((t.Get a b c d).1).p3)
        = keep3 a b c d) := by
  refine ⟨fun a b c d => ⟨sort4_sorted a b c d, sort4_ms a b c d⟩, ?_, ?_, Get4_key⟩
  · intro t a b c d a' b' c' d' h
    have h1 : (sort4 a b c d).1 = (sort4 a' b' c' d').1 :=
      congrArg (fun x : Int × Int × Int => x.1) h
    have h2 : (sort4 a b c d).2.1 = (sort4 a' b' c' d').2.1 :=
      congrArg (fun x : Int × Int × Int => x.2.1) h
    have h3 : (sort4 a b c d).2.2.1 = (sort4 a' b' c' d').2.2.1 :=
      congrArg (fun x : Int × Int × Int => x.2.2) h
    show t.GetSorted (sort4 a b c d).1 (sort4 a b c d).2.1 (sort4 a b c d).2.2.1
      = t.GetSorted (sort4 a' b' c' d').1 (sort4 a' b' c' d').2.1 (sort4 a' b' c' d').2.2.1
    rw [h1, h2, h3]
  · intro t u a b c d a' b' c' d' h hc
    apply h
    rw [← Get4_key t a b c d, ← Get4_key u a' b' c' d', hc]

theorem C2_witness :
    keep3 1 2 3 9 = keep3 3 1 2 7 ∧
    tbl4q.Get 1 2 3 9 = tbl4q.Get 3 1 2 7 ∧
    keep3 1 2 3 9 ≠ keep3 0 2 3 9 ∧
    (tbl4q.Get 1 2 3 9).1 ≠ (tbl4q.Get 0 2 3 9).1 :=
  ⟨by decide,
   C2_Get4_three_smallest.2.1 tbl4q 1 2 3 9 3 1 2 7 (by decide),
   by decide,
   C2_Get4_three_smallest.2.2.1 tbl4q tbl4q 1 2 3 9 0 2 3 9 (by decide)⟩

theorem land_succ_double (j : Nat) : (2 * j + 1) &&& (2 * j) = 2 * j := by
  apply Nat.eq_of_testBit_eq
  intro i
  rw [Nat.testBit_and]
  cases i with
  | zero =>
    simp only [Nat.testBit_zero]
    have h1 : (2 * j + 1) % 2 = 1 := by omega
    have h2 : (2 * j) % 2 = 0 := by omega
    rw [h1, h2]
    simp
  | succ i =>
    simp only [Nat.testBit_succ]
    have h1 : (2 * j + 1) / 2 = j := by omega
    have h2 : (2 * j) / 2 = j := by omega
    rw [h1, h2]
    simp

theorem land_double_pred (j : Nat) (hj : 1 ≤ j) :
    (2 * j) &&& (2 * j - 1) = 2 * (j &&& (j - 1)) := by
  apply Nat.eq_of_testBit_eq
  intro i
  rw [Nat.testBit_and]
  cases i with
  | zero =>
    simp only [Nat.testBit_zero]
    have h1 : (2 * j) % 2 = 0 := by omega
    have h3 : (2 * (j &&& (j - 1))) % 2 = 0 := by omega
    rw [h1, h3]
    simp
  | succ i =>
    simp only [Nat.testBit_succ]
    have h1 : (2 * j) / 2 = j := by omega
    have h2 : (2 * j - 1) / 2 = j - 1 := by omega
    have h3 : (2 * (j &&& (j - 1))) / 2 = j &&& (j - 1) := by omega
    rw [h1, h2, h3, ← Nat.testBit_and]

theorem land_pred_eq_zero_iff :
    ∀ n : Nat, 0 < n → ((n &&& (n - 1)) = 0 ↔ ∃ k, n = 2 ^ k) := by
  intro n
  induction n using Nat.strong_induction_on with
  | _ n ih =>
    intro hn
    rcases Nat.even_or_odd n with ⟨j, hj⟩ | ⟨j, hj⟩
    · subst hj
      have hj1 : 1 ≤ j := by omega
      have h2j : j + j = 2 * j := by omega
      rw [h2j, show 2 * j - 1 = 2 * j - 1 from rfl, land_double_pred j hj1]
      constructor
      · intro h
        have hz : j &&& (j - 1) = 0 := by omega
        obtain ⟨k, hk⟩ := (ih j (by omega) (by omega)).1 hz
        refine ⟨k + 1, ?_⟩
        rw [pow_succ]
        omega
      · rintro ⟨k, hk⟩
        cases k with
        | zero => omega
        | succ k' =>
          rw [pow_succ] at hk
          have hjk : j = 2 ^ k' := by omega
          have hz := (ih j (by omega) (by omega)).2 ⟨k', hjk⟩
          omega
    · subst hj
      rcases Nat.eq_zero_or_pos j with rfl | hj1
      · constructor
        · intro _
          exact ⟨0, by norm_num⟩
        · intro _
          decide
      · have hs : 2 * j + 1 - 1 = 2 * j := by omega
        rw [hs, land_succ_double]
        constructor
        · intro h
          omega
        · rintro ⟨k, hk⟩
          cases k with
          | zero => omega
          | succ k' =>
            rw [pow_succ] at hk
            omega

theorem int_land_ofNat (m n : Nat) :
    Int.land (Int.ofNat m) (Int.ofNat n) = Int.ofNat (m &&& n) := rfl

theorem int_land_negSucc (m n : Nat) :
    Int.land (Int.negSucc m) (Int.negSucc n) = Int.negSucc (m ||| n) := rfl

theorem int_land_pred_eq_zero_iff (size : Int) :
    Int.land size (size - 1) = 0 ↔ (size = 0 ∨ ∃ k : ℕ, size = 2 ^ k) := by
  cases size with
  | ofNat m =>
    cases m with
    | zero =>
      constructor
      · intro _
        exact Or.inl rfl
      · intro _
        show (Int.ofNat (Nat.ldiff 0 0) : Int) = 0
        have hld : Nat.ldiff 0 0 = 0 := Nat.bitwise_zero
        rw [hld]
        rfl
    | succ m' =>
      have hsub : (Int.ofNat (m' + 1)) - 1 = Int.ofNat m' := by
        rw [Int.ofNat_eq_coe, Int.ofNat_eq_coe]
        omega
      rw [hsub, int_land_ofNat]
      constructor
      · intro h
        have hz : (m' + 1) &&& m' = 0 := by
          have := Int.ofNat_eq_zero.1 h
          exact this
        have hz' : (m' + 1) &&& ((m' + 1) - 1) = 0 := by
          simpa using hz
        obtain ⟨k, hk⟩ := (land_pred_eq_zero_iff (m' + 1) (by omega)).1 hz'
        refine Or.inr ⟨k, ?_⟩
        rw [Int.ofNat_eq_coe, hk]
        push_cast
        rfl
      · rintro (h | ⟨k, hk⟩)
        · exfalso
          rw [Int.ofNat_eq_coe] at h
          omega
        · rw [Int.ofNat_eq_coe] at hk
          have hk' : m' + 1 = 2 ^ k := by exact_mod_cast hk
          have hz := (land_pred_eq_zero_iff (m' + 1) (by omega)).2 ⟨k, hk'⟩
          have hz2 : (m' + 1) &&& m' = 0 := by simpa using hz
          rw [hz2]
          rfl
  | negSucc m =>
    rw [Int.negSucc_sub_one, int_land_negSucc]
    constructor
    · intro h
      exact absurd h (Int.negSucc_ne_zero _)
    · rintro (h | ⟨k, hk⟩)
      · exact absurd h (Int.negSucc_ne_zero _)
      · exfalso
        have hpos : (0 : Int) < 2 ^ k := pow_pos (by norm_num) k
        rw [← hk] at hpos
        exact absurd hpos (Int.not_lt.2 (Int.le_of_lt (Int.negSucc_lt_zero m)))

theorem int_land_zero_neg_one : Int.land 0 (0 - 1 : Int) = 0 := by
  show (Int.ofNat (Nat.ldiff 0 0) : Int) = 0
  have hld : Nat.ldiff 0 0 = 0 := Nat.bitwise_zero
  rw [hld]
  rfl

/-- C7 (amended): the constructor's check accepts `size` iff
`size & (size-1) == 0`, which holds iff `size` is zero or a power of two —
for `size = 0` the check erroneously passes (`0 & -1 == 0`) even though 0 is
not a power of two (and the resulting table has no buckets, so any later
access is out of bounds). On every accepted size the constructor produces
all-empty buckets, an equal-length all-true `new_bin` array, an empty
`used_bins` list, an empty identifier index, a fresh id allocator and zeroed
query/collision counters. -/
theorem C7_constructor (size : Int) :
    ((hashTableNew size).isSome ↔ (size = 0 ∨ ∃ k : ℕ, size = 2 ^ k)) ∧
    (∀ t, hashTableNew size = some t →
      t.table = List.replicate size.toNat [] ∧
      t.mask = (size - 1).toNat ∧
      t.new_bin = List.replicate size.toNat true ∧
      t.used_bins = [] ∧ t.id_to_item = [] ∧ t.id_gen = ⟨0, []⟩ ∧
      t.nqueries = 0 ∧ t.ncollisions = 0) := by
  constructor
  · rw [← int_land_pred_eq_zero_iff]
    simp only [hashTableNew]
    split
    · rename_i h
      simp [h]
    · rename_i h
      rw [not_not] at h
      simp [h]
  · intro t ht
    simp only [hashTableNew] at ht
    split at ht
    · exact Option.noConfusion ht
    · injection ht with ht
      subst ht
      exact ⟨rfl, rfl, rfl, rfl, rfl, rfl, rfl, rfl⟩

theorem C7_counterexample :
    (hashTableNew 0).isSome = true ∧ ¬∃ k : ℕ, (0 : Int) = 2 ^ k := by
  constructor
  · simp only [hashTableNew]
    rw [if_neg (fun hc => hc int_land_zero_neg_one)]
    rfl
  · rintro ⟨k, hk⟩
    have hpos : (0 : Int) < 2 ^ k := pow_pos (by norm_num) k
    omega

theorem C7_witness :
    ((hashTableNew 4).isSome ↔ ((4 : Int) = 0 ∨ ∃ k : ℕ, (4 : Int) = 2 ^ k)) ∧
    (tbl4.table = List.replicate (4 : Int).toNat [] ∧
     tbl4.mask = ((4 : Int) - 1).toNat ∧
     tbl4.new_bin = List.replicate (4 : Int).toNat true ∧
     tbl4.used_bins = [] ∧ tbl4.id_to_item = [] ∧ tbl4.id_gen = ⟨0, []⟩ ∧
     tbl4.nqueries = 0 ∧ tbl4.ncollisions = 0) :=
  ⟨(C7_constructor 4).1, (C7_constructor 4).2 tbl4 (by decide)⟩
